import Mathlib

/-!
Shallow embedding of the content-monetization rewriting pipeline of
`scripts/affiliate_manager.py` (class `AffiliateManager`).

Strings are modelled as lists of characters (`Str`), matching Python's
`len`/indexing semantics (characters, not bytes).  Python's `str.lower()`
and the regex word-character class `\w` are modelled on the ASCII range,
which covers the whole static product catalog and every input these
claims mention.  Configuration values read from the YAML file
(`associate_id`, the ClickBank affiliate id, the AdSense `enabled` flag
and `client_id`) are passed as explicit parameters.
-/

set_option maxRecDepth 8192

abbrev Str := List Char

/-- Coerce a Lean string literal to the character-list representation. -/
def str (s : String) : Str := s.data

/-- ASCII model of Python `str.lower()` applied to one character. -/
def lowerChar (c : Char) : Char :=
  if 'A' ≤ c ∧ c ≤ 'Z' then Char.ofNat (c.toNat + 32) else c

/-- ASCII model of Python `str.lower()`. -/
def lowerStr (s : Str) : Str := s.map lowerChar

/-- Python `category.replace('_', ' ')` (single-character replacement). -/
def undToSpace (s : Str) : Str := s.map (fun c => if c = '_' then ' ' else c)

/-- Boolean list-prefix test (needle is an initial segment of the haystack). -/
def isPfx : Str → Str → Bool
  | [], _ => true
  | _ :: _, [] => false
  | a :: as, b :: bs => a == b && isPfx as bs

/-- Index of the leftmost occurrence of `pat` in `l` (a single
left-to-right scan). -/
def findIdx0 (pat : Str) : Str → Option Nat
  | [] => if isPfx pat [] = true then some 0 else none
  | c :: rest =>
    if isPfx pat (c :: rest) = true then some 0
    else (findIdx0 pat rest).map (· + 1)

/-- Python `needle in haystack` (substring containment). -/
def strContains (hay needle : Str) : Bool := (findIdx0 needle hay).isSome

/-- Index of the first occurrence of `pat` in `s` at a position `≥ start`
(case-sensitive), as the leftmost-match search of Python's `re`/`str.find`. -/
def findFrom (s pat : Str) (start : Nat) : Option Nat :=
  (findIdx0 pat (s.drop start)).map (· + start)

/-- Case-insensitive list-prefix test (model of `re.IGNORECASE` literal
matching, comparing lowercased characters). -/
def ciPfx : Str → Str → Bool
  | [], _ => true
  | _ :: _, [] => false
  | a :: as, b :: bs => lowerChar a == lowerChar b && ciPfx as bs

/-- Index of the leftmost case-insensitive occurrence of `pat` in `l`. -/
def findCIIdx0 (pat : Str) : Str → Option Nat
  | [] => if ciPfx pat [] = true then some 0 else none
  | c :: rest =>
    if ciPfx pat (c :: rest) = true then some 0
    else (findCIIdx0 pat rest).map (· + 1)

/-- Index of the first occurrence of `pat` in `s` at a position `≥ start`,
compared case-insensitively (model of `re.IGNORECASE` literal search). -/
def findCIFrom (s pat : Str) (start : Nat) : Option Nat :=
  (findCIIdx0 pat (s.drop start)).map (· + start)

/-- The slice `s[i : i+len]` (clamped, as in Python). -/
def sliceStr (s : Str) (i len : Nat) : Str := (s.drop i).take len

/-- ASCII model of the regex word-character class `\w` = `[A-Za-z0-9_]`. -/
def isWordChar (c : Char) : Bool := c.isAlphanum || c == '_'

/-- Wordness of the first character of a suffix (end of string counts as
non-word). -/
def wordHead : Str → Bool
  | [] => false
  | c :: _ => isWordChar c

/-- The word-boundary test after a match: walk the matched keyword along
the suffix, tracking the wordness of the last consumed character, and
compare it with the wordness of the first character after the match
(`prev` is the wordness of the character just before the suffix). -/
def endBdry : Str → Str → Bool → Bool
  | [], suf, prev => prev != wordHead suf
  | _ :: ks, [], prev => endBdry ks [] prev
  | _ :: ks, c :: rest, _ => endBdry ks rest (isWordChar c)

/-- A match of the regex `\b<kw>\b` (with `re.IGNORECASE`) at the start
of the suffix `suf`, where `prev` is the wordness of the character
immediately preceding `suf` (false at the start of the string): the
keyword matches case-insensitively, with word boundaries on both sides. -/
def matchWBAt (kw suf : Str) (prev : Bool) : Bool :=
  ciPfx kw suf && (prev != wordHead suf) && endBdry kw suf prev

/-- Worker for `findWBAll`: scan the suffix left to right, emitting the
matched slice (original case, as `match.group()`) and resuming after
each match, as `re.finditer` does for non-overlapping matches. -/
def findWBGo (kw : Str) : Nat → Str → Bool → List Str
  | 0, _, _ => []
  | fuel + 1, suf, prev =>
    if matchWBAt kw suf prev then
      let step := max kw.length 1
      suf.take kw.length ::
        findWBGo kw fuel (suf.drop step) (wordHead (suf.drop (step - 1)))
    else
      match suf with
      | [] => []
      | c :: rest => findWBGo kw fuel rest (isWordChar c)

/-- All non-overlapping matches of `\b<kw>\b` (ignore-case) in `s`, in
order, each reported as the original matched slice. -/
def findWBAll (s kw : Str) : List Str := findWBGo kw (s.length + 1) s false

/-- Worker for `findWBIdx`: leftmost match position in the suffix. -/
def findWBIdxGo (kw : Str) : Str → Bool → Option Nat
  | [], prev => if matchWBAt kw [] prev then some 0 else none
  | c :: rest, prev =>
    if matchWBAt kw (c :: rest) prev then some 0
    else (findWBIdxGo kw rest (isWordChar c)).map (· + 1)

/-- Index of the leftmost match of `\b<kw>\b` (ignore-case) in `s`. -/
def findWBIdx (s kw : Str) : Option Nat := findWBIdxGo kw s false

/-- The dataclass `AffiliateProduct` of `affiliate_manager.py`. -/
structure AffiliateProduct where
  name : Str
  category : Str
  amazon_asin : Str
  clickbank_id : Str
  price_range : Str
  description : Str
  keywords : List Str
  amazon_url : Str
  clickbank_url : Str
deriving DecidableEq, Inhabited

/-- The static product catalog built by `load_affiliate_products`. -/
def products : List AffiliateProduct :=
  [ ⟨str "Hatch Baby Rest Sound Machine", str "sound_machine", str "B078K2XMJY",
      str "", str "$60-80", str "Smart sound machine with app control and night light",
      [str "sound machine", str "white noise", str "night light", str "sleep environment"],
      str "https://amazon.com/dp/B078K2XMJY", str ""⟩,
    ⟨str "Baby Sleep Miracle Guide", str "sleep_guide", str "",
      str "babysleep1", str "$37-47", str "Complete baby sleep training system by clinical psychologist",
      [str "sleep training", str "sleep guide", str "baby sleep method", str "sleep schedule"],
      str "", str "https://babysleep.com/special-offer"⟩,
    ⟨str "Nested Bean Zen Sack Sleep Sack", str "sleep_sack", str "B07QKZJ8Q1",
      str "", str "$30-40", str "Weighted sleep sack that mimics parent's touch",
      [str "sleep sack", str "swaddle", str "weighted", str "safe sleep"],
      str "https://amazon.com/dp/B07QKZJ8Q1", str ""⟩,
    ⟨str "Owlet Smart Sock 3", str "baby_monitor", str "B077QNZ5DG",
      str "", str "$250-300", str "Smart baby monitor that tracks heart rate and oxygen",
      [str "baby monitor", str "smart sock", str "heart rate", str "peace of mind"],
      str "https://amazon.com/dp/B077QNZ5DG", str ""⟩,
    ⟨str "The Happy Sleeper Book", str "sleep_book", str "0143108808",
      str "", str "$15-20", str "Evidence-based approach to baby and toddler sleep",
      [str "sleep book", str "sleep training book", str "gentle methods"],
      str "https://amazon.com/dp/0143108808", str ""⟩,
    ⟨str "Blackout Curtains for Nursery", str "room_darkening", str "B07GXZQ8VG",
      str "", str "$25-35", str "Room darkening curtains for better baby sleep",
      [str "blackout curtains", str "room darkening", str "sleep environment"],
      str "https://amazon.com/dp/B07GXZQ8VG", str ""⟩,
    ⟨str "Baby Shusher Sleep Miracle", str "sound_machine", str "B00D2JN87I",
      str "", str "$35-45", str "Rhythmic shushing sound to soothe babies to sleep",
      [str "shusher", str "soothing sounds", str "baby sleep aid"],
      str "https://amazon.com/dp/B00D2JN87I", str ""⟩,
    ⟨str "Marpac Dohm White Noise Machine", str "sound_machine", str "B000KUHFGM",
      str "", str "$45-55", str "Natural white noise machine with adjustable tone",
      [str "white noise machine", str "natural sound", str "sleep machine"],
      str "https://amazon.com/dp/B000KUHFGM", str ""⟩ ]

/-- The relevance score loop body of `find_relevant_products`: one point
per keyword whose lowercase form is a substring of the lowercased
content, plus two if the category (underscores replaced by spaces) is a
substring of the lowercased content. -/
def relevanceScore (content : Str) (p : AffiliateProduct) : Nat :=
  let cl := lowerStr content
  let base := p.keywords.foldl
    (fun acc kw => if strContains cl (lowerStr kw) = true then acc + 1 else acc) 0
  if strContains cl (undToSpace p.category) = true then base + 2 else base

/-- Stable descending insertion by score: keep existing entries whose
score is at least the new entry's, so equal scores preserve insertion
order, as Python's stable `list.sort(key=..., reverse=True)`. -/
def insertDesc (x : AffiliateProduct × Nat) :
    List (AffiliateProduct × Nat) → List (AffiliateProduct × Nat)
  | [] => [x]
  | y :: ys => if x.2 ≤ y.2 then y :: insertDesc x ys else x :: y :: ys

/-- Stable sort by descending score (model of Python's stable
`sort(key=lambda x: x[1], reverse=True)`). -/
def sortDesc (l : List (AffiliateProduct × Nat)) : List (AffiliateProduct × Nat) :=
  l.foldl (fun acc x => insertDesc x acc) []

/-- Model of `find_relevant_products`: score every catalog product in order, keep
the positive scores, stable-sort descending, return the first
`max_products` products. -/
def find_relevant_products (content : Str) (max_products : Nat := 3) :
    List AffiliateProduct :=
  let scored := products.filterMap fun p =>
    let s := relevanceScore content p
    if 0 < s then some (p, s) else none
  ((sortDesc scored).take max_products).map Prod.fst

/-- Upper-case hexadecimal digit, for percent-encoding. -/
def hexDigit (n : Nat) : Char :=
  if n < 10 then Char.ofNat ('0'.toNat + n) else Char.ofNat ('A'.toNat + (n - 10))

/-- ASCII model of `urllib.parse.quote_plus` (the quoting used by
`urlencode`): ASCII letters, digits and `_.-~` kept, space becomes `+`,
anything else percent-encoded. -/
def quotePlus (s : Str) : Str :=
  s.flatMap fun c =>
    if c.isAlphanum || c == '_' || c == '.' || c == '-' || c == '~' then [c]
    else if c == ' ' then ['+']
    else ['%', hexDigit (c.toNat / 16 % 16), hexDigit (c.toNat % 16)]

/-- Join a list of strings with a separator (Python `sep.join(...)`). -/
def joinSep (sep : Str) : List Str → Str
  | [] => []
  | [x] => x
  | x :: y :: rest => x ++ sep ++ joinSep sep (y :: rest)

/-- Model of `urllib.parse.urlencode` on an ordered list of key/value pairs. -/
def urlencode (params : List (Str × Str)) : Str :=
  joinSep (str "&") (params.map fun kv => quotePlus kv.1 ++ str "=" ++ quotePlus kv.2)

/-- Model of `generate_amazon_link`: marketplace deep link with the tracking
parameters, plus a `keywords` parameter when `keyword` is non-empty. -/
def generate_amazon_link (associate_id asin keyword : Str) : Str :=
  str "https://www.amazon.com/dp/" ++ asin ++ str "?" ++
    urlencode ([(str "tag", associate_id), (str "linkCode", str "as2"),
      (str "camp", str "1789"), (str "creative", str "9325")] ++
      (if keyword ≠ [] then [(str "keywords", keyword)] else []))

/-- Model of `generate_clickbank_link`: network hop link (no URL quoting in the
source), with tracking id defaulting to `default`. -/
def generate_clickbank_link (cb_affiliate product_id tid : Str) : Str :=
  let tid' := if tid = [] then str "default" else tid
  str "https://hop.clickbank.net/?affiliate=" ++ cb_affiliate ++
    str "&vendor=" ++ product_id ++ str "&tid=" ++ tid'

/-- The anchor markup built in `insert_affiliate_links`; its visible text
is the product name. -/
def linkAnchor (link name : Str) : Str :=
  str "<a href=\"" ++ link ++ str "\" target=\"_blank\" rel=\"noopener\">" ++
    name ++ str "</a>"

/-- Model of `find_insertion_points`: the non-overlapping `\b<kw>\b` ignore-case
matches of each keyword in order, limited to two entries. -/
def find_insertion_points (content : Str) (p : AffiliateProduct) : List Str :=
  (p.keywords.flatMap fun kw => findWBAll content kw).take 2

/-- Model of `insert_link_at_position`: replace the leftmost `\b<term>\b`
ignore-case match with the anchor markup (the replacement function
discards the matched text). -/
def insert_link_at_position (content search_term link_text : Str) : Str :=
  match findWBIdx content search_term with
  | none => content
  | some i => content.take i ++ link_text ++ content.drop (i + search_term.length)

/-- One entry of the `inserted_links` report of `insert_affiliate_links`. -/
structure LinkRecord where
  product : Str
  category : Str
  link : Str
  position : Str
deriving DecidableEq

/-- Model of `insert_affiliate_links`: for each ranked product, compute the
insertion points on the current (already mutated) content, then for each
point substitute the leftmost occurrence with the anchor and append a
report entry; products with neither external id are skipped. -/
def insert_affiliate_links (associate_id cb_affiliate : Str) (content : Str) :
    Str × List LinkRecord :=
  (find_relevant_products content).foldl
    (fun acc p =>
      let points := find_insertion_points acc.1 p
      points.foldl
        (fun acc2 point =>
          if p.amazon_asin ≠ [] then
            let link := generate_amazon_link associate_id p.amazon_asin (p.keywords.headD [])
            let lt := linkAnchor link p.name
            (insert_link_at_position acc2.1 point lt,
              acc2.2 ++ [⟨p.name, p.category, link, point⟩])
          else if p.clickbank_id ≠ [] then
            let link := generate_clickbank_link cb_affiliate p.clickbank_id []
            let lt := linkAnchor link p.name
            (insert_link_at_position acc2.1 point lt,
              acc2.2 ++ [⟨p.name, p.category, link, point⟩])
          else acc2)
        acc)
    (content, [])

/-- The lead-magnet block of `add_email_capture` (verbatim, including the
surrounding newlines of the Python triple-quoted literal). -/
def emailCaptureHtml : Str :=
  str "\n<div class=\"email-capture-box\">\n    <div class=\"email-capture-content\">\n        <h3>üéÅ Get Your FREE Baby Sleep Schedule Template</h3>\n        <p>Join over 10,000 parents who've downloaded our proven sleep schedule guide. Perfect for babies 0-12 months!</p>\n        <form class=\"email-form\" action=\"/subscribe\" method=\"POST\">\n            <input type=\"email\" name=\"email\" placeholder=\"Your email address\" required>\n            <input type=\"hidden\" name=\"lead_magnet\" value=\"sleep_schedule_template\">\n            <button type=\"submit\" class=\"btn btn-primary\">Get My Free Template ‚Üí</button>\n        </form>\n        <small>We respect your privacy. Unsubscribe anytime.</small>\n    </div>\n</div>\n"

/-- End position of the leftmost match of the pattern
`(</h2>.*?<p>.*?</p>)` with `re.DOTALL`: the first `</h2>`, then the
first `<p>` after it, then the first `</p>` after that (the lazy
quantifiers make each inner search a first-occurrence search, and a
later `</h2>` start can only succeed if the first one does). -/
def emailMatchEnd (content : Str) : Option Nat :=
  match findFrom content (str "</h2>") 0 with
  | none => none
  | some i =>
    match findFrom content (str "<p>") (i + 5) with
    | none => none
    | some j =>
      match findFrom content (str "</p>") (j + 3) with
      | none => none
      | some k => some (k + 4)

/-- Model of `add_email_capture`: insert the lead-magnet block right after the
single leftmost `</h2>.*?<p>.*?</p>` match (replacement
`\1\n\n<block>`, `count=1`); unchanged when the pattern does not match. -/
def add_email_capture (content : Str) : Str :=
  match emailMatchEnd content with
  | none => content
  | some e => content.take e ++ str "\n\n" ++ emailCaptureHtml ++ content.drop e

/-- The in-article AdSense block of `add_google_adsense_units`, around
the interpolated client id. -/
def googleAd (client_id : Str) : Str :=
  str "\n<div class=\"ad-container in-article-ad\">\n    <ins class=\"adsbygoogle\"\n         style=\"display:block; text-align:center;\"\n         data-ad-layout=\"in-article\"\n         data-ad-format=\"fluid\"\n         data-ad-client=\"" ++
    client_id ++
    str "\"\n         data-ad-slot=\"1234567891\"></ins>\n    <script>\n         (adsbygoogle = window.adsbygoogle || []).push(\x7b\x7d);\n    </script>\n</div>\n"

/-- Worker for `splitPy`, with fuel bounding the recursion depth. -/
def splitPyAux (sep : Str) : Nat → Str → List Str
  | 0, s => [s]
  | fuel + 1, s =>
    match findFrom s sep 0 with
    | none => [s]
    | some i => s.take i :: splitPyAux sep fuel (s.drop (i + sep.length))

/-- Python `s.split(sep)` for a non-empty separator: repeatedly cut at
the leftmost occurrence of `sep`. -/
def splitPy (sep s : Str) : List Str := splitPyAux sep (s.length + 1) s

/-- Python `l.insert(i, x)`: insert before index `i` (clamped). -/
def pyInsert (i : Nat) (x : α) (l : List α) : List α :=
  l.take i ++ [x] ++ l.drop i

/-- Model of `add_google_adsense_units`: when the AdSense `enabled` flag is set,
split on `</p>` and, if that yields at least three segments, insert the
ad block (suffixed with `</p>`) as the third segment and rejoin.  Only
the flag is checked; the client id is interpolated unconditionally. -/
def add_google_adsense_units (enabled : Bool) (client_id : Str) (content : Str) : Str :=
  if enabled then
    let paragraphs := splitPy (str "</p>") content
    if 3 ≤ paragraphs.length then
      joinSep (str "</p>") (pyInsert 2 (googleAd client_id ++ str "</p>") paragraphs)
    else content
  else content

/-- Fixed head of the recommendation block of
`generate_recommendation_section`. -/
def recHeader : Str :=
  str "\n<div class=\"product-recommendations\">\n    <h2>üí° Recommended Products to Help Your Baby Sleep Better</h2>\n    <p>Based on the tips in this article, here are some products that many parents find helpful:</p>\n    <div class=\"product-grid\">\n"

/-- Fixed tail of the recommendation block. -/
def recFooter : Str := str "\n    </div>\n</div>\n"

/-- The card markup of `generate_recommendation_section` for one product,
around its name, price range, description, outbound link and platform
label. -/
def productCardHtml (p : AffiliateProduct) (link platform : Str) : Str :=
  str "\n        <div class=\"product-card\">\n            <h3>" ++ p.name ++
    str "</h3>\n            <p class=\"price\">" ++ p.price_range ++
    str "</p>\n            <p class=\"description\">" ++ p.description ++
    str "</p>\n            <a href=\"" ++ link ++
    str "\" class=\"btn btn-affiliate\" target=\"_blank\" rel=\"noopener\">\n                View on " ++
    platform ++
    str " ‚Üí\n            </a>\n            <small class=\"affiliate-disclosure\">As an Amazon Associate, we earn from qualifying purchases.</small>\n        </div>\n"

/-- One product card of `generate_recommendation_section`; a product with
neither external id contributes nothing. -/
def productCard (associate_id cb_affiliate : Str) (p : AffiliateProduct) : Str :=
  if p.amazon_asin ≠ [] then
    productCardHtml p (generate_amazon_link associate_id p.amazon_asin []) (str "Amazon")
  else if p.clickbank_id ≠ [] then
    productCardHtml p (generate_clickbank_link cb_affiliate p.clickbank_id []) (str "Get Guide")
  else []

/-- Model of `generate_recommendation_section`: header, one card per product,
footer. -/
def generate_recommendation_section (associate_id cb_affiliate : Str)
    (ps : List AffiliateProduct) : Str :=
  recHeader ++ (ps.flatMap (productCard associate_id cb_affiliate)) ++ recFooter

/-- True when no newline occurs in positions `[a, b)` of `s` (the `.`
metacharacter without `re.DOTALL` cannot cross a newline). -/
def noNL (s : Str) (a b : Nat) : Bool :=
  (sliceStr s a (b - a)).all fun c => !(c == '\n')

/-- Leftmost match of the conclusion-heading pattern
`(<h2[^>]*>.*?conclusion.*?</h2>)` with `re.IGNORECASE` (no `re.DOTALL`),
returned as (start, end): try each `<h2` start in order; from it the
greedy `[^>]*>` ends at the first `>`, and each lazy part is a
first-occurrence search that must not cross a newline; on a newline
violation the next `<h2` start is tried (a failed first-occurrence
search rules out all later starts as well). -/
def findConclFrom (s : Str) : Nat → Nat → Option (Nat × Nat)
  | 0, _ => none
  | fuel + 1, pos =>
    match findCIFrom s (str "<h2") pos with
    | none => none
    | some i =>
      match findFrom s (str ">") (i + 3) with
      | none => none
      | some g =>
        match findCIFrom s (str "conclusion") (g + 1) with
        | none => none
        | some c =>
          match findCIFrom s (str "</h2>") (c + 10) with
          | none => none
          | some e =>
            if noNL s (g + 1) c && noNL s (c + 10) e then some (i, e + 5)
            else findConclFrom s fuel (i + 1)

/-- Leftmost conclusion-heading match in `s`, if any. -/
def findConcl (s : Str) : Option (Nat × Nat) := findConclFrom s (s.length + 2) 0

/-- Worker for `conclSub`: rewrite every non-overlapping
conclusion-heading match, left to right, replacing the match by
the block, two newlines, then the match (the `re.sub` replacement of the source). -/
def conclSubAux (block : Str) : Nat → Str → Str
  | 0, s => s
  | fuel + 1, s =>
    match findConcl s with
    | none => s
    | some (i, e) =>
      s.take i ++ block ++ str "\n\n" ++ sliceStr s i (e - i) ++
        conclSubAux block fuel (s.drop e)

/-- Model of the `re.sub` of the conclusion-heading pattern (all occurrences). -/
def conclSub (block s : Str) : Str := conclSubAux block (s.length + 1) s

/-- Model of `add_product_recommendations`: rescore the content (cap 3); when any
product is relevant, insert the recommendation block before every
conclusion heading, or append it when there is none. -/
def add_product_recommendations (associate_id cb_affiliate : Str) (content : Str) : Str :=
  let relevant := find_relevant_products content 3
  if relevant = [] then content
  else
    let recHtml := generate_recommendation_section associate_id cb_affiliate relevant
    match findConcl content with
    | some _ => conclSub recHtml content
    | none => content ++ str "\n\n" ++ recHtml

/-- The `monetization_report` dictionary of `process_content`. -/
structure MonetizationReport where
  affiliate_links : List LinkRecord
  email_captures : Nat
  ad_units : Nat
  product_recommendations : Nat
deriving DecidableEq

/-- Model of `process_content`: the four rewriting steps in order, with the three
block flags set by comparing content lengths before and after each
step. -/
def process_content (associate_id cb_affiliate : Str) (ads_enabled : Bool)
    (ads_client : Str) (content : Str) : Str × MonetizationReport :=
  let r1 := insert_affiliate_links associate_id cb_affiliate content
  let c1 := r1.1
  let c2 := add_product_recommendations associate_id cb_affiliate c1
  let pr := if c1.length < c2.length then 1 else 0
  let c3 := add_email_capture c2
  let ec := if c2.length < c3.length then 1 else 0
  let c4 := add_google_adsense_units ads_enabled ads_client c3
  let au := if c3.length < c4.length then 1 else 0
  (c4, ⟨r1.2, ec, au, pr⟩)

/-- Word-boundary variant of the relevance score, written from the
specification's words ("+1 per keyword literal match in content
(case-insensitive, word-boundary)"), for comparison against the source's
substring-based `relevanceScore`. -/
def specRelevanceScore (content : Str) (p : AffiliateProduct) : Nat :=
  let base := p.keywords.foldl
    (fun acc kw => if (findWBIdx content kw).isSome then acc + 1 else acc) 0
  if strContains (lowerStr content) (undToSpace p.category) = true then base + 2 else base

/-- Detector for an anchor opening inside an unclosed anchor: scanning
left to right, an occurrence of an opening anchor while a previous
opening anchor has not yet been closed by `</a>`. -/
def nestedAux : List Char → Bool → Bool
  | [], _ => false
  | c :: rest, opened =>
    if isPfx (str "</a>") (c :: rest) then nestedAux rest false
    else if isPfx (str "<a href=") (c :: rest) then opened || nestedAux rest true
    else nestedAux rest opened

/-- Whether `s` contains an anchor tag nested inside another anchor. -/
def hasNestedAnchor (s : Str) : Bool := nestedAux s false

/-- Number of non-overlapping occurrences of `pat` in `s` (Python
`s.count(pat)` for non-empty `pat`). -/
def countOccur (pat s : Str) : Nat := (splitPy pat s).length - 1

theorem isPfx_length {p s : Str} (h : isPfx p s = true) : p.length ≤ s.length := by
  induction p generalizing s with
  | nil => simp
  | cons a as ih =>
    cases s with
    | nil => simp [isPfx] at h
    | cons b bs =>
      simp only [isPfx, Bool.and_eq_true] at h
      simpa using ih h.2

theorem isPfx_iff_append {p s : Str} : isPfx p s = true ↔ ∃ t, s = p ++ t := by
  constructor
  · intro h
    induction p generalizing s with
    | nil => exact ⟨s, rfl⟩
    | cons a as ih =>
      cases s with
      | nil => simp [isPfx] at h
      | cons b bs =>
        simp only [isPfx, Bool.and_eq_true, beq_iff_eq] at h
        obtain ⟨t, ht⟩ := ih h.2
        exact ⟨t, by simp [h.1, ht]⟩
  · rintro ⟨t, rfl⟩
    induction p with
    | nil => simp [isPfx]
    | cons a as ih => simp [isPfx, ih]

theorem strContains_iff {hay pat : Str} :
    strContains hay pat = true ↔ ∃ l r, hay = l ++ pat ++ r := by
  unfold strContains
  induction hay with
  | nil =>
    simp only [findIdx0]
    by_cases h : isPfx pat [] = true
    · obtain ⟨t, ht⟩ := isPfx_iff_append.mp h
      rcases List.append_eq_nil.mp ht.symm with ⟨h1, h2⟩
      subst h1
      simp [h]
    · simp only [if_neg h, Option.isSome_none]
      constructor
      · intro hf; cases hf
      · rintro ⟨l, r, hl⟩
        rcases List.append_eq_nil.mp hl.symm with ⟨h1, h2⟩
        rcases List.append_eq_nil.mp h1 with ⟨h3, h4⟩
        subst h4
        simp [isPfx] at h
  | cons c rest ih =>
    simp only [findIdx0]
    by_cases h : isPfx pat (c :: rest) = true
    · obtain ⟨t, ht⟩ := isPfx_iff_append.mp h
      simp only [if_pos h, Option.isSome_some, true_iff]
      exact ⟨[], t, by simp [ht]⟩
    · rw [if_neg h]
      have hm : (Option.map (· + 1) (findIdx0 pat rest)).isSome
          = (findIdx0 pat rest).isSome := by
        cases findIdx0 pat rest <;> rfl
      rw [hm, ih]
      constructor
      · rintro ⟨l, r, rfl⟩
        exact ⟨c :: l, r, rfl⟩
      · rintro ⟨l, r, hl⟩
        cases l with
        | nil =>
          exact absurd (isPfx_iff_append.mpr ⟨r, by simpa using hl⟩) h
        | cons d l' =>
          rw [List.cons_append, List.cons_append] at hl
          injection hl with h1 h2
          exact ⟨l', r, h2⟩

theorem foldl_count (f : Str → Bool) (l : List Str) (n : Nat) :
    l.foldl (fun acc kw => if f kw = true then acc + 1 else acc) n
      = n + l.countP f := by
  induction l generalizing n with
  | nil => simp
  | cons a as ih =>
    by_cases h : f a = true <;> simp [List.countP_cons, h, ih]
    omega

theorem relevanceScore_eq (content : Str) (p : AffiliateProduct) :
    relevanceScore content p
      = p.keywords.countP (fun kw => strContains (lowerStr content) (lowerStr kw))
        + (if strContains (lowerStr content) (undToSpace p.category) = true then 2 else 0) := by
  simp only [relevanceScore]
  rw [foldl_count]
  by_cases h : strContains (lowerStr content) (undToSpace p.category) = true <;>
    simp [h]

/-- C2: the spec's claim that a keyword contributes only on a
word-boundary match is false: `relevanceScore` uses plain substring
containment, so the keyword `swaddle` of the Nested Bean sleep sack
matches inside the single word `unswaddled` and scores 1, while the
word-boundary scoring demanded by the claim yields 0 there. -/
theorem claimC2_cex :
    relevanceScore (str "unswaddled") (products.get ⟨2, by decide⟩) = 1
      ∧ specRelevanceScore (str "unswaddled") (products.get ⟨2, by decide⟩) = 0 := by
  decide

/-- C2 (amended): the relevance score is +1 per keyword whose lowercase
form occurs as a plain substring of the lowercased content (no word
boundaries: a keyword fragment inside a longer word still counts), plus
2 when the category with underscores replaced by spaces occurs as a
substring of the lowercased content; substring containment here is
exactly the existence of a decomposition `hay = l ++ needle ++ r`. -/
theorem claimC2_thm (content : Str) (p : AffiliateProduct) :
    relevanceScore content p
      = p.keywords.countP (fun kw => strContains (lowerStr content) (lowerStr kw))
        + (if strContains (lowerStr content) (undToSpace p.category) = true then 2 else 0)
      ∧ ∀ hay pat : Str, strContains hay pat = true ↔ ∃ l r, hay = l ++ pat ++ r :=
  ⟨relevanceScore_eq content p, fun _ _ => strContains_iff⟩

/-- C6: the claimed independence from the category is false: the content
`sound machine white noise` contains exactly two keywords of the Hatch
sound machine (`sound machine` and `white noise`) yet scores 4, because
the category `sound_machine` (with spaces) also occurs and adds 2. -/
theorem claimC6_cex :
    (products.get ⟨0, by decide⟩).keywords.countP
        (fun kw => strContains (lowerStr (str "sound machine white noise")) (lowerStr kw)) = 2
      ∧ relevanceScore (str "sound machine white noise") (products.get ⟨0, by decide⟩) = 4 := by
  decide

/-- C6 (amended): when exactly two of a product's keywords occur
(case-insensitively, as substrings) in the content, the relevance score
is 2 plus the category bonus: 4 when the category with underscores
replaced by spaces also occurs in the content, and exactly 2 otherwise —
not 2 independently of the category. -/
theorem claimC6_thm (content : Str) (p : AffiliateProduct)
    (h : p.keywords.countP
      (fun kw => strContains (lowerStr content) (lowerStr kw)) = 2) :
    relevanceScore content p
      = if strContains (lowerStr content) (undToSpace p.category) = true then 4 else 2 := by
  rw [relevanceScore_eq, h]
  by_cases hc : strContains (lowerStr content) (undToSpace p.category) = true <;> simp [hc]

theorem findIdx0_spec {pat l : Str} {i : Nat} (h : findIdx0 pat l = some i) :
    isPfx pat (l.drop i) = true ∧ i + pat.length ≤ l.length := by
  induction l generalizing i with
  | nil =>
    simp only [findIdx0] at h
    by_cases hp : isPfx pat [] = true
    · rw [if_pos hp] at h
      injection h with h0
      subst h0
      exact ⟨hp, by simpa using isPfx_length hp⟩
    · rw [if_neg hp] at h
      cases h
  | cons c rest ih =>
    simp only [findIdx0] at h
    by_cases hp : isPfx pat (c :: rest) = true
    · rw [if_pos hp] at h
      injection h with h0
      subst h0
      exact ⟨hp, by simpa using isPfx_length hp⟩
    · rw [if_neg hp] at h
      rcases Option.map_eq_some'.mp h with ⟨j, hj, hij⟩
      obtain ⟨hp2, hl2⟩ := ih hj
      subst hij
      refine ⟨by simpa using hp2, by simp; omega⟩

theorem ciPfx_length {p s : Str} (h : ciPfx p s = true) : p.length ≤ s.length := by
  induction p generalizing s with
  | nil => simp
  | cons a as ih =>
    cases s with
    | nil => simp [ciPfx] at h
    | cons b bs =>
      simp only [ciPfx, Bool.and_eq_true] at h
      simpa using ih h.2

theorem findCIIdx0_spec {pat l : Str} {i : Nat} (h : findCIIdx0 pat l = some i) :
    i + pat.length ≤ l.length := by
  induction l generalizing i with
  | nil =>
    simp only [findCIIdx0] at h
    by_cases hp : ciPfx pat [] = true
    · rw [if_pos hp] at h
      injection h with h0
      subst h0
      simpa using ciPfx_length hp
    · rw [if_neg hp] at h
      cases h
  | cons c rest ih =>
    simp only [findCIIdx0] at h
    by_cases hp : ciPfx pat (c :: rest) = true
    · rw [if_pos hp] at h
      injection h with h0
      subst h0
      simpa using ciPfx_length hp
    · rw [if_neg hp] at h
      rcases Option.map_eq_some'.mp h with ⟨j, hj, hij⟩
      have := ih hj
      subst hij
      simp
      omega

theorem findFrom_spec {s pat : Str} {start i : Nat} (hpat : pat ≠ [])
    (h : findFrom s pat start = some i) :
    start ≤ i ∧ i + pat.length ≤ s.length ∧ isPfx pat (s.drop i) = true := by
  have hp1 : 1 ≤ pat.length := by
    cases pat with
    | nil => exact absurd rfl hpat
    | cons a t => simp
  rcases Option.map_eq_some'.mp h with ⟨j, hj, hij⟩
  obtain ⟨hp, hl⟩ := findIdx0_spec hj
  rw [List.length_drop] at hl
  subst hij
  refine ⟨by omega, by omega, ?_⟩
  rwa [List.drop_drop, Nat.add_comm] at hp

theorem findCIFrom_spec {s pat : Str} {start i : Nat} (hpat : pat ≠ [])
    (h : findCIFrom s pat start = some i) :
    start ≤ i ∧ i + pat.length ≤ s.length := by
  have hp1 : 1 ≤ pat.length := by
    cases pat with
    | nil => exact absurd rfl hpat
    | cons a t => simp
  rcases Option.map_eq_some'.mp h with ⟨j, hj, hij⟩
  have hl := findCIIdx0_spec hj
  rw [List.length_drop] at hl
  subst hij
  exact ⟨by omega, by omega⟩

theorem joinSep_cons (sep a : Str) {l : List Str} (h : l ≠ []) :
    joinSep sep (a :: l) = a ++ sep ++ joinSep sep l := by
  cases l with
  | nil => exact absurd rfl h
  | cons b t => rfl

theorem splitPyAux_ne_nil (sep : Str) (fuel : Nat) (s : Str) :
    splitPyAux sep fuel s ≠ [] := by
  cases fuel with
  | zero => simp [splitPyAux]
  | succ n =>
    unfold splitPyAux
    cases h : findFrom s sep 0 <;> simp

theorem splitPyAux_join {sep : Str} (hsep : sep ≠ []) :
    ∀ fuel s, s.length < fuel → joinSep sep (splitPyAux sep fuel s) = s := by
  intro fuel
  induction fuel with
  | zero => intro s h; omega
  | succ n ih =>
    intro s hs
    unfold splitPyAux
    cases h : findFrom s sep 0 with
    | none => rfl
    | some i =>
      obtain ⟨-, hlen, hp⟩ := findFrom_spec hsep h
      have hsl : 1 ≤ sep.length := by
        cases sep with
        | nil => exact absurd rfl hsep
        | cons a t => simp
      rw [joinSep_cons sep _ (splitPyAux_ne_nil sep n _)]
      rw [ih _ (by rw [List.length_drop]; omega)]
      obtain ⟨t, ht⟩ := isPfx_iff_append.mp hp
      have hdt : s.drop (i + sep.length) = t := by
        have h2 : s.drop (i + sep.length) = (s.drop i).drop sep.length := by
          rw [List.drop_drop, Nat.add_comm]
        rw [h2, ht, List.drop_left]
      conv_rhs => rw [← List.take_append_drop i s, ht]
      rw [hdt, List.append_assoc]

theorem splitPy_join {sep : Str} (hsep : sep ≠ []) (s : Str) :
    joinSep sep (splitPy sep s) = s :=
  splitPyAux_join hsep (s.length + 1) s (by omega)

theorem len3_decomp {α : Type} {l : List α} (h : 3 ≤ l.length) :
    ∃ a b c t, l = a :: b :: c :: t := by
  cases l with
  | nil => simp at h
  | cons a l1 =>
    cases l1 with
    | nil => simp at h
    | cons b l2 =>
      cases l2 with
      | nil => simp at h
      | cons c t => exact ⟨a, b, c, t, rfl⟩

theorem ads_length_gt (client content : Str)
    (h : 3 ≤ (splitPy (str "</p>") content).length) :
    content.length < (add_google_adsense_units true client content).length := by
  have hsep : (str "</p>") ≠ [] := by decide
  have hrec := splitPy_join hsep content
  obtain ⟨a, b, c, t, hd⟩ := len3_decomp h
  unfold add_google_adsense_units
  rw [if_pos rfl]
  simp only [hd, if_pos (hd ▸ h)]
  rw [hd] at hrec
  have hins : pyInsert 2 (googleAd client ++ str "</p>") (a :: b :: c :: t)
      = a :: b :: (googleAd client ++ str "</p>") :: c :: t := by
    simp [pyInsert]
  rw [hins]
  rw [joinSep_cons _ _ (by simp), joinSep_cons _ _ (by simp), joinSep_cons _ _ (by simp)]
  rw [joinSep_cons _ _ (by simp), joinSep_cons _ _ (by simp)] at hrec
  have h4 : (str "</p>").length = 4 := rfl
  have := congrArg List.length hrec
  simp only [List.length_append] at this ⊢
  omega

theorem ads_unchanged_of_lt3 {content : Str} (enabled : Bool) (client : Str)
    (h : (splitPy (str "</p>") content).length < 3) :
    add_google_adsense_units enabled client content = content := by
  have h' : ¬ 3 ≤ (splitPy (str "</p>") content).length := by omega
  cases enabled <;> simp [add_google_adsense_units, h']

/-- C7: the claim that an empty client identifier suppresses the ad unit
is false: with ads enabled, an empty client id and three paragraph
segments the ad block is inserted anyway (the source only checks the
`enabled` flag). -/
theorem claimC7_cex :
    add_google_adsense_units true [] (str "a</p>b</p>c</p>") ≠ str "a</p>b</p>c</p>" := by
  decide

/-- C7 (amended): `add_google_adsense_units` gates only on the
ad-enabled flag: when the flag is unset the content is returned
unchanged, and when the flag is set and the content has at least three
`</p>`-split segments the ad unit is inserted even if the configured
client identifier is empty. -/
theorem claimC7_thm (client content : Str) :
    add_google_adsense_units false client content = content
      ∧ (3 ≤ (splitPy (str "</p>") content).length →
          content.length < (add_google_adsense_units true client content).length) :=
  ⟨rfl, fun h => ads_length_gt client content h⟩

/-- C7 witness: the empty client id against three paragraphs. -/
theorem claimC7_wit :
    add_google_adsense_units false [] (str "a</p>b</p>c</p>") = str "a</p>b</p>c</p>"
      ∧ (3 ≤ (splitPy (str "</p>") (str "a</p>b</p>c</p>")).length
          ∧ (str "a</p>b</p>c</p>").length
            < (add_google_adsense_units true [] (str "a</p>b</p>c</p>")).length) :=
  ⟨(claimC7_thm [] (str "a</p>b</p>c</p>")).1,
    by decide, (claimC7_thm [] (str "a</p>b</p>c</p>")).2 (by decide)⟩

/-- C8: a content string with fewer than three `</p>`-split segments is
returned unchanged by `add_google_adsense_units`, for any flag value and
any client identifier. -/
theorem claimC8_thm (enabled : Bool) (client content : Str)
    (h : (splitPy (str "</p>") content).length < 3) :
    add_google_adsense_units enabled client content = content :=
  ads_unchanged_of_lt3 enabled client h

/-- C8 witness: one paragraph with ads enabled and a valid client id. -/
theorem claimC8_wit :
    (splitPy (str "</p>") (str "<p>only one</p>")).length < 3
      ∧ add_google_adsense_units true (str "ca-pub-123") (str "<p>only one</p>")
        = str "<p>only one</p>" :=
  ⟨by decide, claimC8_thm true (str "ca-pub-123") (str "<p>only one</p>") (by decide)⟩

theorem email_len_some {c : Str} {e : Nat} (h : emailMatchEnd c = some e) :
    (add_email_capture c).length = c.length + 2 + emailCaptureHtml.length := by
  have hsplit := congrArg List.length (List.take_append_drop e c)
  rw [List.length_append] at hsplit
  unfold add_email_capture
  rw [h]
  simp only [List.length_append]
  have h2 : (str "\n\n").length = 2 := rfl
  omega

theorem email_len_none {c : Str} (h : emailMatchEnd c = none) :
    add_email_capture c = c := by
  simp [add_email_capture, h]

/-- C3: neither the email-capture step nor the ad-unit step is
idempotent: on `<h2>T</h2><p>x</p>` the email pattern still matches after
the first insertion (the inserted block contains no `</h2>`), so a
second application inserts a second copy, and on `a</p>b</p>c</p>` the
ad-unit step re-splits the already-mutated content into at least three
segments again and inserts a second ad block. -/
theorem claimC3_cex :
    add_email_capture (add_email_capture (str "<h2>T</h2><p>x</p>"))
        ≠ add_email_capture (str "<h2>T</h2><p>x</p>")
      ∧ add_google_adsense_units true (str "ca-pub-1")
            (add_google_adsense_units true (str "ca-pub-1") (str "a</p>b</p>c</p>"))
          ≠ add_google_adsense_units true (str "ca-pub-1") (str "a</p>b</p>c</p>") := by
  constructor
  · intro h
    have h1 : emailMatchEnd (str "<h2>T</h2><p>x</p>") = some 18 := by decide
    have h2 : emailMatchEnd (add_email_capture (str "<h2>T</h2><p>x</p>")) = some 18 := by
      decide
    have l1 := email_len_some h1
    have l2 := email_len_some h2
    have hl := congrArg List.length h
    rw [l2, l1] at hl
    omega
  · intro h
    have h3 : 3 ≤ (splitPy (str "</p>")
        (add_google_adsense_units true (str "ca-pub-1") (str "a</p>b</p>c</p>"))).length := by
      decide
    have hgt := ads_length_gt (str "ca-pub-1") _ h3
    rw [h] at hgt
    omega

/-- C3 (amended): running the email-capture step twice on content whose
insertion pattern still matches after the first run inserts the block
twice, and likewise the ad-unit step inserts a second ad block on its
second run: the single insertion point is not consumed by the first
application. -/
theorem claimC3_thm :
    countOccur (str "email-capture-box") (add_email_capture (str "<h2>T</h2><p>x</p>")) = 1
      ∧ countOccur (str "email-capture-box")
          (add_email_capture (add_email_capture (str "<h2>T</h2><p>x</p>"))) = 2
      ∧ countOccur (str "in-article-ad")
          (add_google_adsense_units true (str "ca-pub-1") (str "a</p>b</p>c</p>")) = 1
      ∧ countOccur (str "in-article-ad")
          (add_google_adsense_units true (str "ca-pub-1")
            (add_google_adsense_units true (str "ca-pub-1") (str "a</p>b</p>c</p>"))) = 2 :=
  ⟨by decide, by decide, by decide, by decide⟩

/-- C1: the claim that an inserted anchor's visible text is the matched
phrase is false: on the spec's end-to-end example the source wraps the
product *name* instead, so no anchor wrapping exactly `white noise
machine` appears in the output (even though the catalog product at
position 7 carries that very keyword). -/
theorem claimC1_cex :
    strContains (insert_affiliate_links (str "aid-20") (str "cbid")
        (str "<h2>Sleep Environment</h2><p>A white noise machine helps.</p>")).1
      (str ">white noise machine</a>") = false
      ∧ str "white noise machine" ∈ (products.get ⟨7, by decide⟩).keywords :=
  ⟨by decide, by decide⟩

/-- C1 (amended): on the end-to-end example the top-ranked product is
the Hatch sound machine; its matched phrases `white noise` and `Sleep
Environment` are each replaced (at their first occurrence) by an anchor
whose visible text is the product name, and the report cites that
product's name for both insertions — the anchor text is the product
name, not the matched phrase, and the `white noise machine` product gets
no link. -/
theorem claimC1_thm :
    ((insert_affiliate_links (str "aid-20") (str "cbid")
        (str "<h2>Sleep Environment</h2><p>A white noise machine helps.</p>")).2.map
          LinkRecord.product
        = [str "Hatch Baby Rest Sound Machine", str "Hatch Baby Rest Sound Machine"])
      ∧ ((insert_affiliate_links (str "aid-20") (str "cbid")
          (str "<h2>Sleep Environment</h2><p>A white noise machine helps.</p>")).2.map
            LinkRecord.position
          = [str "white noise", str "Sleep Environment"])
      ∧ strContains (insert_affiliate_links (str "aid-20") (str "cbid")
          (str "<h2>Sleep Environment</h2><p>A white noise machine helps.</p>")).1
          (str "<p>A <a href=\"") = true
      ∧ strContains (insert_affiliate_links (str "aid-20") (str "cbid")
          (str "<h2>Sleep Environment</h2><p>A white noise machine helps.</p>")).1
          (str ">Hatch Baby Rest Sound Machine</a> machine helps.</p>") = true :=
  ⟨by decide, by decide, by decide, by decide⟩

/-- C4: the no-nesting claim is false: on content ranking the Marpac
white-noise machine above the Hatch sound machine, the Hatch keyword
`white noise` matches inside the visible text of the already-inserted
Marpac anchor (`Marpac Dohm White Noise Machine`), so the second
product's substitution lands inside the first product's anchor. -/
theorem claimC4_cex :
    hasNestedAnchor (insert_affiliate_links (str "aid-20") (str "cbid")
      (str "A white noise machine with natural sound is a sleep machine.")).1 = true := by
  decide

/-- C4 (amended): when two ranked products share keyword text, the
second substitution can nest inside the first anchor's visible text: on
the collision content the output contains an anchor opened right inside
the Marpac anchor's text (`>Marpac Dohm <a href=`) and the Hatch anchor
closed before the remainder of that text (`</a> Machine</a>`). -/
theorem claimC4_thm :
    strContains (insert_affiliate_links (str "aid-20") (str "cbid")
        (str "A white noise machine with natural sound is a sleep machine.")).1
      (str ">Marpac Dohm <a href=") = true
      ∧ strContains (insert_affiliate_links (str "aid-20") (str "cbid")
          (str "A white noise machine with natural sound is a sleep machine.")).1
        (str ">Hatch Baby Rest Sound Machine</a> Machine</a>") = true :=
  ⟨by decide, by decide⟩

theorem catCovered :
    ∀ p ∈ products, ∃ q ∈ products, ∃ kw ∈ q.keywords,
      undToSpace p.category = lowerStr kw := by decide

/-- C5: when the (lowercased) content contains no catalog keyword, every
relevance score is zero — in the static catalog every category string
with spaces is itself a keyword of some product, so the category bonus
cannot fire either — hence no product is selected and
`insert_affiliate_links` returns the content unchanged with an empty
report. -/
theorem claimC5_thm (content : Str)
    (h : ∀ p ∈ products, ∀ kw ∈ p.keywords,
      strContains (lowerStr content) (lowerStr kw) = false) :
    (∀ m, find_relevant_products content m = [])
      ∧ ∀ aid cb, insert_affiliate_links aid cb content = (content, []) := by
  have score0 : ∀ p ∈ products, relevanceScore content p = 0 := by
    intro p hp
    rw [relevanceScore_eq]
    have hc : p.keywords.countP
        (fun kw => strContains (lowerStr content) (lowerStr kw)) = 0 := by
      rw [List.countP_eq_zero]
      intro kw hkw
      simp [h p hp kw hkw]
    obtain ⟨q, hq, kw, hkw, he⟩ := catCovered p hp
    rw [hc, he, h q hq kw hkw]
    simp
  have hrel : ∀ m, find_relevant_products content m = [] := by
    intro m
    unfold find_relevant_products
    have : (products.filterMap fun p =>
        let s := relevanceScore content p
        if 0 < s then some (p, s) else none) = [] := by
      rw [List.filterMap_eq_nil_iff]
      intro p hp
      simp [score0 p hp]
    rw [this]
    simp [sortDesc]
  refine ⟨hrel, fun aid cb => ?_⟩
  unfold insert_affiliate_links
  rw [hrel 3]
  rfl

/-- C5 witness: content sharing no keyword with the catalog. -/
theorem claimC5_wit :
    (∀ p ∈ products, ∀ kw ∈ p.keywords,
      strContains (lowerStr (str "quarterly tax filing tips")) (lowerStr kw) = false)
      ∧ find_relevant_products (str "quarterly tax filing tips") 3 = []
      ∧ insert_affiliate_links (str "aid-20") (str "cbid") (str "quarterly tax filing tips")
        = (str "quarterly tax filing tips", []) :=
  ⟨by decide, (claimC5_thm (str "quarterly tax filing tips") (by decide)).1 3,
    (claimC5_thm (str "quarterly tax filing tips") (by decide)).2 (str "aid-20") (str "cbid")⟩

theorem insertDesc_perm (l : List (AffiliateProduct × Nat)) (x : AffiliateProduct × Nat) :
    (insertDesc x l).Perm (x :: l) := by
  induction l with
  | nil => exact List.Perm.refl _
  | cons y ys ih =>
    unfold insertDesc
    by_cases h : x.2 ≤ y.2
    · rw [if_pos h]
      exact (ih.cons y).trans (List.Perm.swap x y ys)
    · rw [if_neg h]

theorem sortDesc_perm_aux (l acc : List (AffiliateProduct × Nat)) :
    (l.foldl (fun acc x => insertDesc x acc) acc).Perm (acc ++ l) := by
  induction l generalizing acc with
  | nil => simp
  | cons x xs ih =>
    simp only [List.foldl_cons]
    refine ((ih (insertDesc x acc)).trans ?_)
    refine (((insertDesc_perm acc x).append_right xs).trans ?_)
    exact List.perm_middle.symm

theorem sortDesc_perm (l : List (AffiliateProduct × Nat)) : (sortDesc l).Perm l := by
  simpa using sortDesc_perm_aux l []

theorem insertDesc_sorted {l : List (AffiliateProduct × Nat)}
    (hl : l.Pairwise (fun a b => b.2 ≤ a.2)) (x : AffiliateProduct × Nat) :
    (insertDesc x l).Pairwise (fun a b => b.2 ≤ a.2) := by
  induction l with
  | nil => simp [insertDesc]
  | cons y ys ih =>
    rw [List.pairwise_cons] at hl
    obtain ⟨hy, hys⟩ := hl
    unfold insertDesc
    by_cases h : x.2 ≤ y.2
    · rw [if_pos h]
      rw [List.pairwise_cons]
      refine ⟨?_, ih hys⟩
      intro a ha
      rcases List.mem_cons.mp ((insertDesc_perm ys x).mem_iff.mp ha) with rfl | ha'
      · exact h
      · exact hy a ha'
    · rw [if_neg h]
      push_neg at h
      rw [List.pairwise_cons]
      refine ⟨?_, List.pairwise_cons.mpr ⟨hy, hys⟩⟩
      intro a ha
      rcases List.mem_cons.mp ha with rfl | ha'
      · omega
      · have := hy a ha'
        omega

theorem sortDesc_sorted (l : List (AffiliateProduct × Nat)) :
    (sortDesc l).Pairwise (fun a b => b.2 ≤ a.2) := by
  suffices h : ∀ acc, acc.Pairwise (fun a b => b.2 ≤ a.2) →
      (l.foldl (fun acc x => insertDesc x acc) acc).Pairwise (fun a b => b.2 ≤ a.2) by
    exact h [] (by simp)
  induction l with
  | nil => intro acc hacc; simpa using hacc
  | cons x xs ih =>
    intro acc hacc
    simp only [List.foldl_cons]
    exact ih _ (insertDesc_sorted hacc x)

theorem insertDesc_filter {l : List (AffiliateProduct × Nat)}
    (hl : l.Pairwise (fun a b => b.2 ≤ a.2)) (x : AffiliateProduct × Nat) (s : Nat) :
    (insertDesc x l).filter (fun a => a.2 == s)
      = l.filter (fun a => a.2 == s) ++ (if x.2 == s then [x] else []) := by
  induction l with
  | nil =>
    by_cases hx : x.2 == s <;> simp [insertDesc, List.filter_cons, hx]
  | cons y ys ih =>
    rw [List.pairwise_cons] at hl
    obtain ⟨hy, hys⟩ := hl
    unfold insertDesc
    by_cases h : x.2 ≤ y.2
    · rw [if_pos h]
      rw [List.filter_cons, List.filter_cons]
      by_cases hy2 : (y.2 == s) <;> simp [hy2, ih hys]
    · rw [if_neg h]
      push_neg at h
      by_cases hx : x.2 == s
      · have hnil : (y :: ys).filter (fun a => a.2 == s) = [] := by
          rw [List.filter_eq_nil_iff]
          intro a ha
          rcases List.mem_cons.mp ha with rfl | ha'
          · have hxs : x.2 = s := by simpa using hx
            simp
            omega
          · have := hy a ha'
            have hxs : x.2 = s := by simpa using hx
            simp
            omega
        rw [List.filter_cons, hnil]
        simp [hx]
      · rw [List.filter_cons]
        simp only [hx]
        rw [List.filter_cons]
        by_cases hy2 : (y.2 == s) <;> simp [hy2, hx]

theorem sortDesc_filter (l : List (AffiliateProduct × Nat)) (s : Nat) :
    (sortDesc l).filter (fun a => a.2 == s) = l.filter (fun a => a.2 == s) := by
  suffices h : ∀ acc, acc.Pairwise (fun a b => b.2 ≤ a.2) →
      (l.foldl (fun acc x => insertDesc x acc) acc).filter (fun a => a.2 == s)
        = acc.filter (fun a => a.2 == s) ++ l.filter (fun a => a.2 == s) by
    simpa using h [] (by simp)
  induction l with
  | nil => intro acc hacc; simp
  | cons x xs ih =>
    intro acc hacc
    simp only [List.foldl_cons]
    rw [ih _ (insertDesc_sorted hacc x), insertDesc_filter hacc x s, List.filter_cons]
    by_cases hx : x.2 == s <;> simp [hx]

/-- C9: `find_relevant_products` is the first `max_products` entries of a
list `S` that is a permutation of the positive-score products taken in
catalog order, is sorted by non-increasing score, and preserves the
catalog order within every score class (the filter by any fixed score is
unchanged), i.e. a stable descending sort of the scored catalog with
zero scores discarded; the `max_products` cap defaults to 3. -/
theorem claimC9_thm (content : Str) (m : Nat) :
    ∃ S : List (AffiliateProduct × Nat),
      find_relevant_products content m = (S.take m).map Prod.fst
        ∧ S.Perm (products.filterMap fun p =>
            if 0 < relevanceScore content p then some (p, relevanceScore content p) else none)
        ∧ S.Pairwise (fun a b => b.2 ≤ a.2)
        ∧ ∀ s : Nat, S.filter (fun a => a.2 == s)
            = (products.filterMap fun p =>
                if 0 < relevanceScore content p
                then some (p, relevanceScore content p) else none).filter
              (fun a => a.2 == s) :=
  ⟨sortDesc (products.filterMap fun p =>
      if 0 < relevanceScore content p then some (p, relevanceScore content p) else none),
    rfl, sortDesc_perm _, sortDesc_sorted _, fun s => sortDesc_filter _ s⟩

/-- C6 witness: the Baby Sleep Miracle guide against content containing
exactly its keywords `sleep training` and `sleep schedule` and not its
category `sleep guide`. -/
theorem claimC6_wit :
    (products.get ⟨1, by decide⟩).keywords.countP
        (fun kw => strContains (lowerStr (str "sleep training and a sleep schedule")) (lowerStr kw)) = 2
      ∧ relevanceScore (str "sleep training and a sleep schedule") (products.get ⟨1, by decide⟩)
        = if strContains (lowerStr (str "sleep training and a sleep schedule"))
            (undToSpace (products.get ⟨1, by decide⟩).category) = true then 4 else 2 :=
  ⟨by decide, claimC6_thm (str "sleep training and a sleep schedule") (products.get ⟨1, by decide⟩) (by decide)⟩


theorem findConclFrom_bounds :
    ∀ (fuel pos : Nat) {s : Str} {i e : Nat},
      findConclFrom s fuel pos = some (i, e) → i + 19 ≤ e ∧ e ≤ s.length := by
  intro fuel
  induction fuel with
  | zero =>
    intro pos s i e h
    simp [findConclFrom] at h
  | succ n ih =>
    intro pos s i e h
    unfold findConclFrom at h
    split at h
    · cases h
    next i1 h1 =>
      split at h
      · cases h
      next g h2 =>
        split at h
        · cases h
        next c h3 =>
          split at h
          · cases h
          next e1 h4 =>
            split at h
            · injection h with hpair
              rw [Prod.mk.injEq] at hpair
              obtain ⟨hi, he⟩ := hpair
              have b1 := findCIFrom_spec (by decide) h1
              have b2 := findFrom_spec (by decide) h2
              have b3 := findCIFrom_spec (by decide) h3
              have b4 := findCIFrom_spec (by decide) h4
              have e1' : (str "<h2").length = 3 := rfl
              have e2' : (str ">").length = 1 := rfl
              have e3' : (str "conclusion").length = 10 := rfl
              have e4' : (str "</h2>").length = 5 := rfl
              obtain ⟨hb2, hb2', -⟩ := b2
              subst hi
              subst he
              constructor <;> omega
            · exact ih _ h

theorem findConcl_bounds {s : Str} {i e : Nat} (h : findConcl s = some (i, e)) :
    i + 19 ≤ e ∧ e ≤ s.length :=
  findConclFrom_bounds (s.length + 2) 0 h

theorem conclSubAux_ge (block : Str) :
    ∀ (fuel : Nat) (s : Str), s.length ≤ (conclSubAux block fuel s).length := by
  intro fuel
  induction fuel with
  | zero => intro s; simp [conclSubAux]
  | succ n ih =>
    intro s
    unfold conclSubAux
    cases h : findConcl s with
    | none => simp
    | some ie =>
      obtain ⟨i, e⟩ := ie
      obtain ⟨h1, h2⟩ := findConcl_bounds h
      have htail := ih (s.drop e)
      rw [List.length_drop] at htail
      simp only [List.length_append, sliceStr, List.length_take, List.length_drop]
      have hnl : (str "\n\n").length = 2 := rfl
      omega

theorem conclSub_gt (block s : Str) (h : (findConcl s).isSome = true) :
    s.length + 2 ≤ (conclSub block s).length := by
  rw [Option.isSome_iff_exists] at h
  obtain ⟨ie, hie⟩ := h
  obtain ⟨i, e⟩ := ie
  obtain ⟨h1, h2⟩ := findConcl_bounds hie
  unfold conclSub conclSubAux
  rw [hie]
  have htail := conclSubAux_ge block s.length (s.drop e)
  rw [List.length_drop] at htail
  simp only [List.length_append, sliceStr, List.length_take, List.length_drop]
  have hnl : (str "\n\n").length = 2 := rfl
  omega

theorem recs_len (aid cb content : Str) :
    content.length ≤ (add_product_recommendations aid cb content).length
      ∧ (content.length < (add_product_recommendations aid cb content).length
          ↔ find_relevant_products content 3 ≠ []) := by
  by_cases hr : find_relevant_products content 3 = []
  · simp [add_product_recommendations, hr]
  · cases hc : findConcl content with
    | none =>
      have hred : add_product_recommendations aid cb content
          = content ++ str "\n\n"
            ++ generate_recommendation_section aid cb (find_relevant_products content 3) := by
        simp [add_product_recommendations, hr, hc]
      rw [hred]
      simp only [List.length_append]
      have hnl : (str "\n\n").length = 2 := rfl
      exact ⟨by omega, fun _ => hr, fun _ => by omega⟩
    | some ie =>
      have hred : add_product_recommendations aid cb content
          = conclSub (generate_recommendation_section aid cb
              (find_relevant_products content 3)) content := by
        simp [add_product_recommendations, hr, hc]
      have hgt := conclSub_gt (generate_recommendation_section aid cb
        (find_relevant_products content 3)) content (by rw [hc]; rfl)
      rw [hred]
      exact ⟨by omega, fun _ => hr, fun _ => by omega⟩

theorem email_len (content : Str) :
    content.length ≤ (add_email_capture content).length
      ∧ (content.length < (add_email_capture content).length
          ↔ (emailMatchEnd content).isSome = true) := by
  cases h : emailMatchEnd content with
  | none => rw [email_len_none h]; simp
  | some e =>
    have := email_len_some h
    constructor
    · omega
    · simp only [Option.isSome_some]
      constructor
      · intro _; trivial
      · intro _; omega

theorem ads_len (enabled : Bool) (client content : Str) :
    content.length ≤ (add_google_adsense_units enabled client content).length
      ∧ (content.length < (add_google_adsense_units enabled client content).length
          ↔ enabled = true ∧ 3 ≤ (splitPy (str "</p>") content).length) := by
  cases enabled with
  | false => simp [add_google_adsense_units]
  | true =>
    by_cases h3 : 3 ≤ (splitPy (str "</p>") content).length
    · have := ads_length_gt client content h3
      constructor
      · omega
      · constructor
        · intro _; exact ⟨rfl, h3⟩
        · intro _; omega
    · rw [ads_unchanged_of_lt3 true client (by omega)]
      simp [h3]

/-- C10: each of the three block-insertion steps never shrinks the
content, and lengthens it exactly when its insertion condition fires
(relevant products for the recommendation block, a pattern match for the
email block, the enabled flag plus three `</p>` segments for the ad
block); consequently the length-comparison heuristic of
`process_content` sets each report flag to 1 exactly when the
corresponding condition held for the intermediate content it was applied
to. -/
theorem claimC10_thm (aid cb ads_client : Str) (enabled : Bool) (content : Str) :
    (content.length ≤ (add_product_recommendations aid cb content).length
      ∧ (content.length < (add_product_recommendations aid cb content).length
          ↔ find_relevant_products content 3 ≠ []))
    ∧ (content.length ≤ (add_email_capture content).length
      ∧ (content.length < (add_email_capture content).length
          ↔ (emailMatchEnd content).isSome = true))
    ∧ (content.length ≤ (add_google_adsense_units enabled ads_client content).length
      ∧ (content.length < (add_google_adsense_units enabled ads_client content).length
          ↔ enabled = true ∧ 3 ≤ (splitPy (str "</p>") content).length))
    ∧ ((process_content aid cb enabled ads_client content).2.product_recommendations
          = (if find_relevant_products (insert_affiliate_links aid cb content).1 3 ≠ []
              then 1 else 0)
      ∧ (process_content aid cb enabled ads_client content).2.email_captures
          = (if (emailMatchEnd (add_product_recommendations aid cb
                (insert_affiliate_links aid cb content).1)).isSome = true then 1 else 0)
      ∧ (process_content aid cb enabled ads_client content).2.ad_units
          = (if enabled = true ∧ 3 ≤ (splitPy (str "</p>")
                (add_email_capture (add_product_recommendations aid cb
                  (insert_affiliate_links aid cb content).1))).length then 1 else 0)) := by
  refine ⟨recs_len aid cb content, email_len content, ads_len enabled ads_client content,
    ?_, ?_, ?_⟩
  · simp only [process_content]
    rw [if_congr (recs_len aid cb (insert_affiliate_links aid cb content).1).2 rfl rfl]
  · simp only [process_content]
    rw [if_congr (email_len (add_product_recommendations aid cb
      (insert_affiliate_links aid cb content).1)).2 rfl rfl]
  · simp only [process_content]
    rw [if_congr (ads_len enabled ads_client (add_email_capture
      (add_product_recommendations aid cb (insert_affiliate_links aid cb content).1))).2 rfl rfl]
